import Mathlib

/-!
Verification of the Council module (council.js): the 3-stage LLM Council
workflow.  We give a shallow embedding of the module's pure logic and of its
orchestration, with the network transport modelled as an explicit oracle
`transport : String → String → Except String String` taking a model id and a
prompt and returning either the completion text or a transport-error message.

JavaScript numbers are modelled by `ℚ` (all arithmetic performed by the module
on the values of interest is exact on the rationals; `Math.round(x*100)/100`
is modelled exactly by `round2`).  JavaScript objects used as string-keyed
maps are modelled by insertion-ordered association lists (`List (String × α)`);
a real JS object never has duplicate keys, which theorems record as a `Nodup`
hypothesis where the behaviour could otherwise differ.
-/

namespace Council

/-- A candidate response entering the council: `{modelId, modelName, content}`. -/
structure CandidateResponse where
  modelId : String
  modelName : String
  content : String
deriving Repr, DecidableEq

/-- The value stored in `labelToModel`: `{modelId, modelName}`. -/
structure ModelInfo where
  modelId : String
  modelName : String
deriving Repr, DecidableEq

/-- Lookup in a JS-object-as-association-list (first binding wins; a JS object
has no duplicate keys, so this is exact). -/
def lookupStr {α : Type} (k : String) : List (String × α) → Option α
  | [] => none
  | (k', v) :: rest => if k' = k then some v else lookupStr k rest

/-- JS `obj[k] = v`: overwrite in place if the key exists, else append. -/
def setKey {α : Type} (m : List (String × α)) (k : String) (v : α) :
    List (String × α) :=
  match m with
  | [] => [(k, v)]
  | (k', v') :: rest => if k' = k then (k, v) :: rest else (k', v') :: setKey rest k v

/-! ## String scanning primitives

The parser in council.js works with JS regexes.  We embed each of the three
concrete regexes as a deterministic scanner over `List Char` (none of the
patterns needs backtracking: every quantifier is followed by a character that
cannot extend it). -/

/-- Index of the first occurrence of `sep` in `s` (JS `String.indexOf`). -/
def findSub (sep : List Char) : List Char → Option Nat
  | [] => if sep = [] then some 0 else none
  | c :: rest =>
    if sep.isPrefixOf (c :: rest) then some 0
    else (findSub sep rest).map (· + 1)

/-- `sub` occurs in `s` (JS `String.includes`). -/
def containsChars (sub s : List Char) : Bool := (findSub sub s).isSome

/-- JS `text.split(sep)[1]` for a non-empty separator, returned only when
`split` produces at least two parts (i.e. when `sep` occurs): the characters
strictly between the first occurrence of `sep` and the second one (or the end
of the string when `sep` occurs only once). -/
def part1After (sep s : List Char) : Option (List Char) :=
  match findSub sep s with
  | none => none
  | some i =>
    let after := s.drop (i + sep.length)
    match findSub sep after with
    | none => some after
    | some j => some (after.take j)

/-- JS `\s`: the ASCII whitespace characters together with the Unicode space
characters the class matches (NBSP, Ogham space, U+2000–U+200A, line and
paragraph separators, narrow NBSP, medium mathematical space, ideographic
space, and the BOM). -/
def isJsSpace (c : Char) : Bool :=
  c = ' ' || c = '\t' || c = '\n' || c = '\r' || c = '\x0b' || c = '\x0c' ||
  c = '\u00A0' || c = '\u1680' || ('\u2000' ≤ c && c ≤ '\u200A') ||
  c = '\u2028' || c = '\u2029' || c = '\u202F' || c = '\u205F' ||
  c = '\u3000' || c = '\uFEFF'

/-- Case-insensitively match the (lowercase) pattern `p` at the head of the
input, returning the consumed slice in its original case and the rest. -/
def matchCI : List Char → List Char → Option (List Char × List Char)
  | [], s => some ([], s)
  | _ :: _, [] => none
  | p :: ps, c :: cs =>
    if c.toLower = p then (matchCI ps cs).map (fun r => (c :: r.1, r.2))
    else none

/-- Match `HIGH|MEDIUM|LOW` case-insensitively at the head of the input,
returning the upper-cased alternative (`confidenceMatch[1].toUpperCase()`). -/
def matchConf (s : List Char) : Option (String × List Char) :=
  match matchCI "high".data s with
  | some r => some ("HIGH", r.2)
  | none =>
    match matchCI "medium".data s with
    | some r => some ("MEDIUM", r.2)
    | none =>
      match matchCI "low".data s with
      | some r => some ("LOW", r.2)
      | none => none

/-- One attempted match of `/\d+\.\s*Response [A-Z]\s*\(?(HIGH|MEDIUM|LOW)\)?/i`
at the head of the input.  On success returns the `Response <letter>` slice in
its original case (this is what `m.match(/Response [A-Z]/i)[0]` recovers from
the whole match `m`), the confidence that tier 1 assigns for this match
(`m.match(/\((HIGH|MEDIUM|LOW)\)/i)` succeeds exactly when both parentheses
were matched, else the `'MEDIUM'` default), and the remaining input. -/
def tryP1 (s : List Char) : Option (List Char × String × List Char) :=
  match s with
  | [] => none
  | c :: cs =>
    if c.isDigit then
      match cs.dropWhile Char.isDigit with
      | '.' :: rest1 =>
        let rest2 := rest1.dropWhile isJsSpace
        match matchCI "response ".data rest2 with
        | none => none
        | some (respSlice, rest3) =>
          match rest3 with
          | l :: rest4 =>
            if l.isAlpha then
              let rest5 := rest4.dropWhile isJsSpace
              let openClose : Bool × List Char :=
                match rest5 with
                | '(' :: r => (true, r)
                | _ => (false, rest5)
              match matchConf openClose.2 with
              | none => none
              | some (confU, rest7) =>
                match rest7 with
                | ')' :: rest8 =>
                  some (respSlice ++ [l], if openClose.1 then confU else "MEDIUM", rest8)
                | _ =>
                  some (respSlice ++ [l], "MEDIUM", rest7)
            else none
          | [] => none
      | _ => none
    else none

/-- One attempted match of the case-sensitive `/\d+\.\s*Response [A-Z]/` at the
head of the input, returning the `Response <letter>` slice and the rest. -/
def tryP2 (s : List Char) : Option (List Char × List Char) :=
  match s with
  | [] => none
  | c :: cs =>
    if c.isDigit then
      match cs.dropWhile Char.isDigit with
      | '.' :: rest1 =>
        let rest2 := rest1.dropWhile isJsSpace
        match matchCI "response ".data rest2 with
        | none => none
        | some (slice, rest3) =>
          if slice = "Response ".data then
            match rest3 with
            | l :: rest4 => if l.isUpper then some (slice ++ [l], rest4) else none
            | [] => none
          else none
      | _ => none
    else none

/-- One attempted match of the case-sensitive `/Response [A-Z]/` at the head
of the input. -/
def tryP3 (s : List Char) : Option (List Char × List Char) :=
  match matchCI "response ".data s with
  | none => none
  | some (slice, rest) =>
    if slice = "Response ".data then
      match rest with
      | l :: rest' => if l.isUpper then some (slice ++ [l], rest') else none
      | [] => none
    else none

/-- Global scan for tier-1 matches (JS `section.match(/.../gi)`): leftmost,
non-overlapping, continuing after each match.  `fuel` bounds the recursion by
the input length; every step consumes at least one character, so with
`fuel = s.length` the scan is exhaustive. -/
def scanP1Go : Nat → List Char → List (List Char × String)
  | 0, _ => []
  | _, [] => []
  | fuel + 1, c :: cs =>
    match tryP1 (c :: cs) with
    | some (slice, conf, rest) => (slice, conf) :: scanP1Go fuel rest
    | none => scanP1Go fuel cs

def scanP1 (s : List Char) : List (List Char × String) := scanP1Go s.length s

/-- Global scan for tier-2 matches (`/\d+\.\s*Response [A-Z]/g`). -/
def scanP2Go : Nat → List Char → List (List Char)
  | 0, _ => []
  | _, [] => []
  | fuel + 1, c :: cs =>
    match tryP2 (c :: cs) with
    | some (slice, rest) => slice :: scanP2Go fuel rest
    | none => scanP2Go fuel cs

def scanP2 (s : List Char) : List (List Char) := scanP2Go s.length s

/-- Global scan for tier-3/fallback matches (`/Response [A-Z]/g`). -/
def scanP3Go : Nat → List Char → List (List Char)
  | 0, _ => []
  | _, [] => []
  | fuel + 1, c :: cs =>
    match tryP3 (c :: cs) with
    | some (slice, rest) => slice :: scanP3Go fuel rest
    | none => scanP3Go fuel cs

def scanP3 (s : List Char) : List (List Char) := scanP3Go s.length s

/-! ## parseRankingWithConfidence -/

/-- Result of `parseRankingWithConfidence`:
`{ranking: Array, confidenceScores: Object}`. -/
structure ParsedRanking where
  ranking : List String
  confidenceScores : List (String × String)
deriving Repr, DecidableEq

def finalRankingMarker : List Char := "FINAL RANKING:".data

/-- Tier-1 accumulation: for each match push the label and assign its
confidence (`confidenceScores[label] = ...`, later assignments overwrite). -/
def tier1Result (ms : List (List Char × String)) : ParsedRanking :=
  { ranking := ms.map (fun m => String.mk m.1)
    confidenceScores := ms.foldl (fun acc m => setKey acc (String.mk m.1) m.2) [] }

/-- Tier-2/3 accumulation: push each label with default confidence MEDIUM. -/
def tierDefaultResult (ms : List (List Char)) : ParsedRanking :=
  { ranking := ms.map String.mk
    confidenceScores := ms.foldl (fun acc m => setKey acc (String.mk m) "MEDIUM") [] }

/-- `parseRankingWithConfidence(text)` from council.js.

The JS code first tests `text.includes('FINAL RANKING:')`, then takes
`text.split('FINAL RANKING:')[1]` (the text between the first and second
occurrence of the marker) — `part1After` captures exactly this, returning
`none` when the marker is absent.  Within the marker section the three tiers
are tried in order; if none of the tiered regexes matches (or the marker is
absent) control reaches the outer fallback applied to the whole text; if even
that finds nothing, the empty result is returned. -/
def parseRankingWithConfidence (text : String) : ParsedRanking :=
  let fallback : ParsedRanking :=
    let ms := scanP3 text.data
    if ms.isEmpty then { ranking := [], confidenceScores := [] }
    else tierDefaultResult ms
  match part1After finalRankingMarker text.data with
  | none => fallback
  | some rankingSection =>
    let m1 := scanP1 rankingSection
    if ¬ m1.isEmpty then tier1Result m1
    else
      let m2 := scanP2 rankingSection
      if ¬ m2.isEmpty then tierDefaultResult m2
      else
        let m3 := scanP3 rankingSection
        if ¬ m3.isEmpty then tierDefaultResult m3
        else fallback

/-- `parseRanking(text)`: just the ordered labels. -/
def parseRanking (text : String) : List String :=
  (parseRankingWithConfidence text).ranking

/-! ## validateRanking -/

/-- `validateRanking(ranking, expectedCount)`: false iff the ranking is empty,
shorter than expected, or contains a duplicate (`new Set(ranking).size`). -/
def validateRanking (ranking : List String) (expectedCount : Nat) : Bool :=
  if ranking.isEmpty then false
  else if ranking.length < expectedCount then false
  else if ranking.eraseDups.length ≠ ranking.length then false
  else true

/-! ## extractRankingCriteria -/

/-- The fixed vocabulary of evaluation-criterion keywords. -/
def criteriaKeywords : List String :=
  ["accuracy", "completeness", "clarity", "relevance", "depth",
   "detail", "precision", "coherence", "creativity", "practicality",
   "technical", "understandable", "concise", "thorough"]

/-- `extractRankingCriteria(text)`.  The first pass records every keyword that
occurs anywhere in the lower-cased text.  The second pass of the JS code (over
`criteriaPattern` matches) can only re-add keywords that occur inside the full
text, all of which the first pass already recorded, so it never changes the
result; the `weights` field is likewise never populated.  Returns `none` when
no keyword matched. -/
def extractRankingCriteria (text : String) : Option (List String) :=
  let lower := text.data.map Char.toLower
  let mentioned := criteriaKeywords.filter (fun k => containsChars k.data lower)
  if mentioned.isEmpty then none else some mentioned

/-! ## collectRankings -/

/-- One parsed-and-validated ranking produced by a council member. -/
structure RawRanking where
  modelId : String
  modelName : String
  fullRanking : String
  parsedRanking : List String
  confidenceScores : List (String × String)
  rankingCriteria : Option (List String)
  isValid : Bool
  error : Option String
deriving Repr, DecidableEq

/-- The anonymizing label character for the `i`-th response:
`String.fromCharCode(65 + i)`.  `fromCharCode` applies ToUint16, so the code
point wraps mod 2^16; the wrap is embedded.  A wrapped code unit in the
surrogate range 0xD800–0xDFFF is not a Unicode scalar value and has no Lean
`Char`; `Char.ofNat` maps it to `'\x00'`, so the embedding is exact for
`65 + i % 65536` outside 0xD800–0xDFFF — every theorem below that inspects a
label stays in the exact range. -/
def labelChar (i : Nat) : Char := Char.ofNat ((65 + i) % 65536)

/-- The `labelToModel` object, built by one JS assignment per response in
input order: `labelToModel[`Response ${label}`] = {modelId, modelName}` —
an assignment to an already-present key (possible when labels collide after
the ToUint16 wrap) overwrites in place, exactly as `setKey` does. -/
def mkLabelToModel (responses : List CandidateResponse) :
    List (String × ModelInfo) :=
  responses.enum.foldl
    (fun acc p =>
      setKey acc ("Response ".push (labelChar p.1)) ⟨p.2.modelId, p.2.modelName⟩)
    []

/-- The anonymized responses block of the ranking prompt. -/
def responsesText (responses : List CandidateResponse) : String :=
  String.intercalate "\n\n"
    (responses.enum.map (fun p =>
      "Response ".push (labelChar p.1) ++ ":\n" ++ p.2.content))

/-- The ranking prompt sent to every council member (verbatim template from
`collectRankings`). -/
def rankingPrompt (userQuery : String) (responses : List CandidateResponse) : String :=
  "You are evaluating different responses to the following question:\n\nQuestion: "
  ++ userQuery
  ++ "\n\nHere are the responses from different models (anonymized):\n\n"
  ++ responsesText responses
  ++ "\n\nYour task:\n1. First, evaluate each response individually. For each response, explain:\n   - What it does well (strengths)\n   - What it does poorly (weaknesses)\n   - What criteria you're using to evaluate (accuracy, completeness, clarity, relevance, etc.)\n   - Your confidence level in this evaluation (HIGH, MEDIUM, or LOW)\n2. Then, at the very end of your response, provide a final ranking with confidence scores.\n\nIMPORTANT: Your final ranking MUST be formatted EXACTLY as follows:\n- Start with the line \"FINAL RANKING:\" (all caps, with colon)\n- Then list the responses from best to worst as a numbered list\n- Each line should be: number, period, space, response label, space, confidence in parentheses\n- Format: \"1. Response A (HIGH)\" or \"2. Response B (MEDIUM)\" or \"3. Response C (LOW)\"\n- Do not add any other text or explanations in the ranking section\n\nExample of the correct format for your ENTIRE response:\n\nResponse A provides good detail on X but misses Y. Criteria: accuracy (good), completeness (partial). Confidence: MEDIUM.\nResponse B is accurate but lacks depth on Z. Criteria: accuracy (excellent), depth (lacking). Confidence: HIGH.\nResponse C offers the most comprehensive answer. Criteria: all aspects strong. Confidence: HIGH.\n\nFINAL RANKING:\n1. Response C (HIGH)\n2. Response B (HIGH)\n3. Response A (MEDIUM)\n\nNow provide your evaluation and ranking:"

/-- The network: given a model id and the (single user message) prompt,
return the completion text or fail with a transport-error message.  This
stands for `sendChatCompletion` + `extractMessageContent`. -/
abbrev Transport : Type := String → String → Except String String

/-- Result of `collectRankings`. -/
structure CollectResult where
  rankings : List RawRanking
  labelToModel : List (String × ModelInfo)
deriving Repr, DecidableEq

/-- The ranking produced for one council member: parse and validate on
success; on transport error record an invalid ranking with the message (the
per-model `try`/`catch` in `collectRankings`). -/
def rankingOf (transport : Transport) (prompt : String) (expectedCount : Nat)
    (r : CandidateResponse) : RawRanking :=
  match transport r.modelId prompt with
  | .ok content =>
    let parsed := parseRankingWithConfidence content
    { modelId := r.modelId
      modelName := r.modelName
      fullRanking := content
      parsedRanking := parsed.ranking
      confidenceScores := parsed.confidenceScores
      rankingCriteria := extractRankingCriteria content
      isValid := validateRanking parsed.ranking expectedCount
      error := none }
  | .error msg =>
    { modelId := r.modelId
      modelName := r.modelName
      fullRanking := "Error: " ++ msg
      parsedRanking := []
      confidenceScores := []
      rankingCriteria := none
      isValid := false
      error := some msg }

/-- `collectRankings(userQuery, responses, apiKey)`.  The parallel
`Promise.all` dispatch resolves, under a deterministic transport, to one
ranking per response in input order. -/
def collectRankings (userQuery : String) (responses : List CandidateResponse)
    (transport : Transport) : CollectResult :=
  let prompt := rankingPrompt userQuery responses
  { rankings := responses.map (rankingOf transport prompt responses.length)
    labelToModel := mkLabelToModel responses }

/-! ## synthesizeFinal -/

/-- Result of the chairman synthesis: `{modelId, modelName, content}`. -/
structure SynthesisResult where
  modelId : String
  modelName : String
  content : String
deriving Repr, DecidableEq

/-- The stage-1 context block of the chairman prompt. -/
def stage1Text (responses : List CandidateResponse) : String :=
  String.intercalate "\n\n"
    (responses.map (fun r => "Model: " ++ r.modelName ++ "\nResponse: " ++ r.content))

/-- The stage-2 context block of the chairman prompt. -/
def stage2Text (rankings : List RawRanking) : String :=
  String.intercalate "\n\n"
    (rankings.map (fun r => "Model: " ++ r.modelName ++ "\nRanking: " ++ r.fullRanking))

/-- The chairman prompt (verbatim template from `synthesizeFinal`). -/
def chairmanPrompt (userQuery : String) (responses : List CandidateResponse)
    (rankings : List RawRanking) : String :=
  "You are the Chairman of an LLM Council. Multiple AI models have provided responses to a user's question, and then ranked each other's responses.\n\nOriginal Question: "
  ++ userQuery
  ++ "\n\nSTAGE 1 - Individual Responses:\n"
  ++ stage1Text responses
  ++ "\n\nSTAGE 2 - Peer Rankings:\n"
  ++ stage2Text rankings
  ++ "\n\nYour task as Chairman is to synthesize all of this information into a single, comprehensive, accurate answer to the user's original question. Consider:\n- The individual responses and their insights\n- The peer rankings and what they reveal about response quality\n- Any patterns of agreement or disagreement\n\nProvide a clear, well-reasoned final answer that represents the council's collective wisdom:"

/-- `synthesizeFinal(userQuery, responses, rankings, chairmanModelId, apiKey)`.
On success the chairman's name is looked up among the responses
(`chairmanModel?.modelName || 'Chairman'`, where an empty name is falsy); on
transport failure the returned `content` is the descriptive error string and
the failure is not propagated. -/
def synthesizeFinal (userQuery : String) (responses : List CandidateResponse)
    (rankings : List RawRanking) (chairmanModelId : String)
    (transport : Transport) : SynthesisResult :=
  match transport chairmanModelId (chairmanPrompt userQuery responses rankings) with
  | .ok content =>
    { modelId := chairmanModelId
      modelName :=
        match responses.find? (fun r => r.modelId = chairmanModelId) with
        | some r => if r.modelName = "" then "Chairman" else r.modelName
        | none => "Chairman"
      content := content }
  | .error msg =>
    { modelId := chairmanModelId
      modelName := "Chairman"
      content := "Error synthesizing response: " ++ msg }

/-! ## calculateAggregateRankings -/

/-- `Math.round(x * 100) / 100` (JS `Math.round` rounds half toward +∞),
exactly on the rationals. -/
def round2 (q : ℚ) : ℚ := ((⌊q * 100 + 1 / 2⌋ : ℤ) : ℚ) / 100

/-- One entry of the Performance Store (`getAllModelStats()`). -/
structure ModelStat where
  modelId : String
  avgQualityScore : ℚ
  errorRate : ℚ
deriving Repr, DecidableEq

/-- Aggregation options with the JS defaults. -/
structure AggOptions where
  useWeightedAggregation : Bool := true
  useConfidenceWeighting : Bool := true
deriving Repr, DecidableEq

/-- The confidence-score weight table
(`{HIGH: 1.0, MEDIUM: 0.7, LOW: 0.4}`, unknown keys default to `0.7`). -/
def confWeightOf (conf : String) : ℚ :=
  if conf = "HIGH" then 1
  else if conf = "MEDIUM" then 7 / 10
  else if conf = "LOW" then 2 / 5
  else 7 / 10

/-- The per-ranking model weight.  With weighting enabled, look the model up
in the stats (the JS `Map` is keyed by `modelId`; `getAllModelStats` yields
one entry per model, so first-match lookup is exact); `avgQualityScore` is
tested for truthiness (`0` is falsy), `errorRate || 0` is the identity on
numbers.  Without stats — or with weighting disabled — the weight is `1.0`. -/
def modelWeightOf (useWeighted : Bool) (stats : List ModelStat)
    (modelId : String) : ℚ :=
  if useWeighted then
    match stats.find? (fun s => s.modelId = modelId) with
    | some st =>
      let qualityWeight := if st.avgQualityScore ≠ 0 then st.avgQualityScore / 100 else 1 / 2
      let mw := qualityWeight * (1 - st.errorRate)
      1 / 2 + mw * 1
    | none => 1
  else 1

/-- One `positionsByLabel[label].push(...)` payload. -/
structure PosEntry where
  position : ℚ
  weight : ℚ
deriving Repr, DecidableEq

/-- A ranking contributes unless it is both invalid and empty
(`!ranking.isValid && ranking.parsedRanking.length === 0`). -/
def contributes (r : RawRanking) : Bool :=
  !(!r.isValid && r.parsedRanking.isEmpty)

/-- The sequence of pushes one contributing ranking performs: for the label at
0-based `position`, the 1-based position, the effective weight
(model weight, times the confidence weight when confidence weighting is on and
the label has a truthy confidence entry), and the confidence string pushed
into `confidenceByLabel` (`confidenceScores[label] || 'MEDIUM'`). -/
def rankingEvents (useConf : Bool) (mw : ℚ) (r : RawRanking) :
    List (String × PosEntry × String) :=
  r.parsedRanking.enum.map (fun p =>
    let label := p.2
    let ew :=
      match lookupStr label r.confidenceScores with
      | some conf => if useConf ∧ conf ≠ "" then mw * confWeightOf conf else mw
      | none => mw
    let pushedConf :=
      match lookupStr label r.confidenceScores with
      | some conf => if conf ≠ "" then conf else "MEDIUM"
      | none => "MEDIUM"
    (label, ⟨(p.1 : ℚ) + 1, ew⟩, pushedConf))

/-- All pushes performed by the aggregation loop, in order. -/
def allEvents (opts : AggOptions) (stats : List ModelStat)
    (rankings : List RawRanking) : List (String × PosEntry × String) :=
  (rankings.filter contributes).flatMap (fun r =>
    rankingEvents opts.useConfidenceWeighting
      (modelWeightOf opts.useWeightedAggregation stats r.modelId) r)

/-- The accumulated `positionsByLabel` / `confidenceByLabel` pair of objects
(they always share their keys, so we accumulate them together). -/
def pushEvent (acc : List (String × List PosEntry × List String))
    (label : String) (pe : PosEntry) (conf : String) :
    List (String × List PosEntry × List String) :=
  match acc with
  | [] => [(label, [pe], [conf])]
  | (k, ps, cs) :: rest =>
    if k = label then (k, ps ++ [pe], cs ++ [conf]) :: rest
    else (k, ps, cs) :: pushEvent rest label pe conf

def buildAcc (opts : AggOptions) (stats : List ModelStat)
    (rankings : List RawRanking) : List (String × List PosEntry × List String) :=
  (allEvents opts stats rankings).foldl (fun acc e => pushEvent acc e.1 e.2.1 e.2.2) []

/-- One row of the aggregate output. -/
structure AggregateEntry where
  label : String
  modelId : String
  modelName : String
  avgRank : ℚ
  rankingsCount : Nat
  avgConfidence : ℚ
  confHigh : Nat
  confMedium : Nat
  confLow : Nat
  totalWeight : ℚ
deriving Repr, DecidableEq

/-- Build the aggregate entry for one label, guarded by
`weightedPositions.length > 0 && labelToModel[label]`. -/
def mkEntry (labelToModel : List (String × ModelInfo)) (label : String)
    (ps : List PosEntry) (cs : List String) : Option AggregateEntry :=
  if ps.isEmpty then none
  else
    match lookupStr label labelToModel with
    | none => none
    | some info =>
      let totalWeight := (ps.map (fun p => p.weight)).sum
      let weightedSum := (ps.map (fun p => p.position * p.weight)).sum
      let avgRank := if 0 < totalWeight then weightedSum / totalWeight else 0
      let hi := (cs.filter (fun c => c = "HIGH")).length
      let med := (cs.filter (fun c => c = "MEDIUM")).length
      let lo := (cs.filter (fun c => c = "LOW")).length
      let avgConfidence :=
        if 0 < cs.length then
          ((hi : ℚ) * 1 + (med : ℚ) * (7 / 10) + (lo : ℚ) * (2 / 5)) / (cs.length : ℚ)
        else 7 / 10
      some
        { label := label
          modelId := info.modelId
          modelName := info.modelName
          avgRank := round2 avgRank
          rankingsCount := ps.length
          avgConfidence := round2 avgConfidence
          confHigh := hi
          confMedium := med
          confLow := lo
          totalWeight := round2 totalWeight }

/-- Stable insertion preserving original order among ties, like the (stable)
JS `Array.sort` with comparator `a.avgRank - b.avgRank`. -/
def insertByRank (e : AggregateEntry) :
    List AggregateEntry → List AggregateEntry
  | [] => [e]
  | x :: xs => if e.avgRank ≤ x.avgRank then e :: x :: xs else x :: insertByRank e xs

def sortByAvgRank (l : List AggregateEntry) : List AggregateEntry :=
  l.foldr insertByRank []

/-- `calculateAggregateRankings(rankings, labelToModel, options)`.  The
Performance Store read `getAllModelStats()` is passed in as `stats` (used only
when `useWeightedAggregation` is set, exactly as in the source). -/
def calculateAggregateRankings (rankings : List RawRanking)
    (labelToModel : List (String × ModelInfo)) (opts : AggOptions)
    (stats : List ModelStat) : List AggregateEntry :=
  sortByAvgRank
    ((buildAcc opts stats rankings).filterMap
      (fun kv => mkEntry labelToModel kv.1 kv.2.1 kv.2.2))

/-! ## analyzeDisagreements

`stdDev = Math.sqrt(variance)` is irrational in general and is used by the
source only through the test `stdDev > 1.0` and as display data; since
`variance ≥ 0`, `Math.sqrt(variance) > 1.0 ↔ variance > 1`, so the embedding
keeps `variance` and performs the threshold test on it, omitting the redundant
`stdDev` field. -/

/-- Per-label statistics row of the `variances` object. -/
structure LabelStat where
  mean : ℚ
  variance : ℚ
  positions : List ℚ
deriving Repr, DecidableEq

/-- Population variance data of a nonempty position list, as computed by the
source (`mean`, then `Σ(pos-mean)²/n`). -/
def statsOf (positions : List ℚ) : LabelStat :=
  let mean := positions.sum / (positions.length : ℚ)
  let variance := (positions.map (fun p => (p - mean) ^ 2)).sum / (positions.length : ℚ)
  ⟨mean, variance, positions⟩

/-- A ranking participates in disagreement analysis iff it is flagged valid
and has a non-empty parsed order. -/
def isUsableRanking (r : RawRanking) : Bool :=
  r.isValid && !r.parsedRanking.isEmpty

/-- `positionMatrix[label].push(index + 1)` — a push into an existing key;
pushes for keys not present in the matrix are silently dropped
(the `if (positionMatrix[label])` guard). -/
def pushPos (matrix : List (String × List ℚ)) (label : String) (pos : ℚ) :
    List (String × List ℚ) :=
  match matrix with
  | [] => []
  | (k, ps) :: rest =>
    if k = label then (k, ps ++ [pos]) :: rest
    else (k, ps) :: pushPos rest label pos

/-- The sequence of `(label, 1-based position)` pushes the nested
`validRankings.forEach`/`parsedRanking.forEach` loops perform, in order. -/
def disagEvents (validRankings : List RawRanking) : List (String × ℚ) :=
  validRankings.flatMap (fun r =>
    r.parsedRanking.enum.map (fun p => (p.2, (p.1 : ℚ) + 1)))

/-- One entry of the `disagreements` list (the `stdDev` display field is
omitted, see above; the filter `stdDev > 1.0` is `variance > 1`). -/
structure Disagreement where
  label : String
  modelName : String
  variance : ℚ
  positions : List ℚ
  rankMin : ℚ
  rankMax : ℚ
deriving Repr, DecidableEq

/-- `mostContested` payload. -/
structure Contested where
  label : String
  modelName : String
  variance : ℚ
deriving Repr, DecidableEq

/-- The full disagreement report.  The short-circuit return carries no
`positionMatrix` key, hence the `Option`. -/
structure DisagreementReport where
  consensus : ℚ
  disagreements : List Disagreement
  mostContested : Option Contested
  positionMatrix : Option (List (String × List ℚ))
deriving Repr, DecidableEq

/-- `Math.min(...positions)` / `Math.max(...positions)` on a nonempty list
(`0` for the empty list, which the source never reaches). -/
def listMin : List ℚ → ℚ
  | [] => 0
  | p :: ps => ps.foldl min p

def listMax : List ℚ → ℚ
  | [] => 0
  | p :: ps => ps.foldl max p

/-- Stable descending insertion by variance, like the stable JS `Array.sort`
with comparator `b.variance - a.variance`: the `foldr` inserts each element
into the sorted suffix of the elements after it, and placing it before the
first element of equal variance keeps the original order among ties. -/
def insertByVarianceContested (e : String × LabelStat) :
    List (String × LabelStat) → List (String × LabelStat)
  | [] => [e]
  | x :: xs =>
    if x.2.variance ≤ e.2.variance then e :: x :: xs
    else x :: insertByVarianceContested e xs

def sortByVarianceContested (l : List (String × LabelStat)) :
    List (String × LabelStat) :=
  l.foldr insertByVarianceContested []

def insertByVarianceDisag (e : Disagreement) :
    List Disagreement → List Disagreement
  | [] => [e]
  | x :: xs =>
    if x.variance ≤ e.variance then e :: x :: xs
    else x :: insertByVarianceDisag e xs

def sortByVarianceDisag (l : List Disagreement) : List Disagreement :=
  l.foldr insertByVarianceDisag []

/-- `labelToModel[label]?.modelName || label` (an empty stored name is falsy). -/
def displayName (labelToModel : List (String × ModelInfo)) (label : String) : String :=
  match lookupStr label labelToModel with
  | some info => if info.modelName = "" then label else info.modelName
  | none => label

/-- The `positionMatrix` object: one (initially empty) entry per label of
`labelToModel`, filled by the push sequence of the valid rankings. -/
def disagMatrix (validRankings : List RawRanking) (labels : List String) :
    List (String × List ℚ) :=
  (disagEvents validRankings).foldl (fun m e => pushPos m e.1 e.2)
    (labels.map (fun l => (l, [])))

/-- The `variances` object: per-label statistics, skipping labels with no
recorded position, in label iteration order. -/
def disagVariances (matrix : List (String × List ℚ)) (labels : List String) :
    List (String × LabelStat) :=
  labels.filterMap (fun label =>
    match lookupStr label matrix with
    | none => none
    | some positions =>
      if positions.isEmpty then none else some (label, statsOf positions))

/-- `analyzeDisagreements(rankings, labelToModel)`. -/
def analyzeDisagreements (rankings : List RawRanking)
    (labelToModel : List (String × ModelInfo)) : DisagreementReport :=
  let validRankings := rankings.filter isUsableRanking
  if validRankings.length < 2 then
    { consensus := 1, disagreements := [], mostContested := none, positionMatrix := none }
  else
    let labels := labelToModel.map Prod.fst
    let matrix := disagMatrix validRankings labels
    let variances := disagVariances matrix labels
    let mostContested := (sortByVarianceContested variances).head?
    let totalVariance := (variances.map (fun v => v.2.variance)).sum
    let maxPossibleVariance := ((labels.length : ℚ) ^ 2) / 12
    let consensus :=
      max 0 (1 - totalVariance / (maxPossibleVariance * (labels.length : ℚ)))
    let disagreements :=
      sortByVarianceDisag
        ((variances.filter (fun v => 1 < v.2.variance)).map (fun v =>
          { label := v.1
            modelName := displayName labelToModel v.1
            variance := v.2.variance
            positions := v.2.positions
            rankMin := listMin v.2.positions
            rankMax := listMax v.2.positions }))
    { consensus := round2 consensus
      disagreements := disagreements
      mostContested :=
        mostContested.map (fun mc =>
          { label := mc.1
            modelName := displayName labelToModel mc.1
            variance := mc.2.variance })
      positionMatrix := some matrix }

/-! ## runCouncil -/

/-- The fatal orchestrator error (`throw new Error(...)` at INIT; the spec
names it `InsufficientResponsesError`). -/
inductive CouncilError where
  | insufficientResponses (msg : String)
deriving Repr, DecidableEq

/-- One row of `rankingValidation.invalidDetails`
(`error: r.error || 'Incomplete ranking'`, an empty message being falsy). -/
structure InvalidDetail where
  modelName : String
  error : String
deriving Repr, DecidableEq

structure RankingValidation where
  totalRankings : Nat
  validRankings : Nat
  invalidRankings : Nat
  invalidDetails : List InvalidDetail
deriving Repr, DecidableEq

/-- The composite Council Result returned by a completed run. -/
structure CouncilResult where
  rankings : List RawRanking
  labelToModel : List (String × ModelInfo)
  aggregateRankings : List AggregateEntry
  synthesis : SynthesisResult
  disagreementAnalysis : DisagreementReport
  rankingValidation : RankingValidation
deriving Repr, DecidableEq

/-- `chairmanModelId || responses[0].modelId` (`null` and the empty string are
both falsy). -/
def chairmanOf (chairmanModelId : Option String)
    (responses : List CandidateResponse) : String :=
  match chairmanModelId with
  | some cid => if cid = "" then (responses.headD ⟨"", "", ""⟩).modelId else cid
  | none => (responses.headD ⟨"", "", ""⟩).modelId

/-- `runCouncil(userQuery, responses, apiKey, chairmanModelId, options)`.  The
`console.warn` on many invalid rankings is a log-only side effect with no
influence on the result and is not modelled. -/
def runCouncil (userQuery : String) (responses : List CandidateResponse)
    (transport : Transport) (stats : List ModelStat)
    (chairmanModelId : Option String := none) (opts : AggOptions := {}) :
    Except CouncilError CouncilResult :=
  if responses.length < 2 then
    .error (.insufficientResponses "Council requires at least 2 responses")
  else
    let chairman := chairmanOf chairmanModelId responses
    let cr := collectRankings userQuery responses transport
    let validRankings := cr.rankings.filter (fun r => r.isValid)
    let invalidRankings := cr.rankings.filter (fun r => !r.isValid)
    let aggInput := if 0 < validRankings.length then validRankings else cr.rankings
    let aggregateRankings := calculateAggregateRankings aggInput cr.labelToModel opts stats
    let disagreementAnalysis := analyzeDisagreements aggInput cr.labelToModel
    let synthesis := synthesizeFinal userQuery responses cr.rankings chairman transport
    .ok
      { rankings := cr.rankings
        labelToModel := cr.labelToModel
        aggregateRankings := aggregateRankings
        synthesis := synthesis
        disagreementAnalysis := disagreementAnalysis
        rankingValidation :=
          { totalRankings := cr.rankings.length
            validRankings := validRankings.length
            invalidRankings := invalidRankings.length
            invalidDetails := invalidRankings.map (fun r =>
              { modelName := r.modelName
                error :=
                  match r.error with
                  | some e => if e = "" then "Incomplete ranking" else e
                  | none => "Incomplete ranking" }) } }

/-- Projection used to state orchestrator-level synthesis facts without an
existential over the whole result. -/
def synthesisOf : Except CouncilError CouncilResult → Option SynthesisResult
  | .ok r => some r.synthesis
  | .error _ => none

/-! ## Specification-side quantities

These definitions restate, directly from the specification's wording, the
quantities the aggregate / disagreement claims compare against; the theorems
below relate them to the embedded implementation. -/

/-- Arithmetic mean of a list of rationals. -/
def listMean (l : List ℚ) : ℚ := l.sum / (l.length : ℚ)

/-- Population variance `Σ(x - mean)² / n`. -/
def popVariance (l : List ℚ) : ℚ :=
  (l.map (fun p => (p - listMean l) ^ 2)).sum / (l.length : ℚ)

/-- The 1-based positions a label receives across all contributing rankings
(a ranking contributes to aggregation unless it is both invalid and empty),
in ranking order. -/
def contributingPositions (rankings : List RawRanking) (label : String) : List ℚ :=
  (rankings.filter contributes).flatMap (fun r =>
    r.parsedRanking.enum.filterMap (fun p =>
      if p.2 = label then some ((p.1 : ℚ) + 1) else none))

/-- The 1-based positions a label receives across the valid (usable) rankings
that participate in disagreement analysis. -/
def usablePositions (rankings : List RawRanking) (label : String) : List ℚ :=
  (rankings.filter isUsableRanking).flatMap (fun r =>
    r.parsedRanking.enum.filterMap (fun p =>
      if p.2 = label then some ((p.1 : ℚ) + 1) else none))

/-- The spec's `totalVariance`: the sum, over the labels of `labelToModel`, of
the per-label population variances (labels receiving no position are
skipped). -/
def specTotalVariance (rankings : List RawRanking)
    (labelToModel : List (String × ModelInfo)) : ℚ :=
  ((labelToModel.map Prod.fst).map (fun label =>
    if (usablePositions rankings label).isEmpty then 0
    else popVariance (usablePositions rankings label))).sum

/-! ## Association-list lemmas -/

theorem lookupStr_eq_none_iff {α : Type} (k : String) (m : List (String × α)) :
    lookupStr k m = none ↔ k ∉ m.map Prod.fst := by
  induction m with
  | nil => simp [lookupStr]
  | cons kv rest ih =>
    obtain ⟨k', v⟩ := kv
    by_cases h : k' = k
    · subst h; simp [lookupStr]
    · simp only [lookupStr, if_neg h, List.map_cons, List.mem_cons, ih]
      constructor
      · intro hnot hor
        rcases hor with he | hm
        · exact h he.symm
        · exact hnot hm
      · intro hnot hm
        exact hnot (Or.inr hm)

theorem lookupStr_map_nil (k : String) (labels : List String) :
    lookupStr k (labels.map (fun l => (l, ([] : List ℚ)))) =
      if k ∈ labels then some [] else none := by
  induction labels with
  | nil => simp [lookupStr]
  | cons l ls ih =>
    by_cases h : l = k
    · subst h; simp [lookupStr]
    · simp [lookupStr, h, ih, Ne.symm h]

theorem lookupStr_of_mem_nodupKeys {α : Type} {m : List (String × α)}
    (hnd : (m.map Prod.fst).Nodup) {kv : String × α} (hm : kv ∈ m) :
    lookupStr kv.1 m = some kv.2 := by
  induction m with
  | nil => cases hm
  | cons hd rest ih =>
    obtain ⟨k0, v0⟩ := hd
    simp only [List.map_cons, List.nodup_cons] at hnd
    rcases List.mem_cons.mp hm with h | h
    · subst h; simp [lookupStr]
    · have hk : k0 ≠ kv.1 := by
        intro he
        exact hnd.1 (he ▸ List.mem_map.mpr ⟨kv, h, rfl⟩)
      simp [lookupStr, hk, ih hnd.2 h]

/-- Assigning a fresh key appends the binding. -/
theorem setKey_eq_append {α : Type} (m : List (String × α)) (k : String) (v : α)
    (h : k ∉ m.map Prod.fst) : setKey m k v = m ++ [(k, v)] := by
  induction m with
  | nil => simp [setKey]
  | cons hd rest ih =>
    obtain ⟨k0, v0⟩ := hd
    simp only [List.map_cons, List.mem_cons, not_or] at h
    have hk0 : ¬ k0 = k := fun he => h.1 he.symm
    show (if k0 = k then (k, v) :: rest else (k0, v0) :: setKey rest k v) = _
    rw [if_neg hk0, ih h.2, List.cons_append]

/-- A fold of JS object assignments with pairwise-fresh keys builds exactly
the corresponding association list, in assignment order. -/
theorem foldl_setKey_pairs {α β : Type} (l : List β) (key : β → String)
    (val : β → α) :
    ∀ acc : List (String × α),
      (l.map key).Nodup →
      (∀ k, k ∈ acc.map Prod.fst → k ∉ l.map key) →
      l.foldl (fun a b => setKey a (key b) (val b)) acc =
        acc ++ l.map (fun b => (key b, val b)) := by
  induction l with
  | nil => intro acc _ _; simp
  | cons b rest ih =>
    intro acc hnd hdisj
    rw [List.foldl_cons]
    have hkb : key b ∉ acc.map Prod.fst := fun hmem => hdisj (key b) hmem (by simp)
    rw [setKey_eq_append acc (key b) (val b) hkb]
    simp only [List.map_cons, List.nodup_cons] at hnd
    have hdisj' : ∀ k, k ∈ (acc ++ [(key b, val b)]).map Prod.fst →
        k ∉ rest.map key := by
      intro k hmem
      rw [List.map_append] at hmem
      rcases List.mem_append.mp hmem with hmem | hmem
      · intro hr
        exact hdisj k hmem (List.mem_cons_of_mem _ hr)
      · simp only [List.map_cons, List.map_nil, List.mem_singleton] at hmem
        subst hmem
        exact hnd.1
    rw [ih (acc ++ [(key b, val b)]) hnd.2 hdisj', List.append_assoc, List.map_cons]
    rfl

/-- When no two responses produce the same key (in particular whenever the
response count keeps every label code unit below the ToUint16 wrap), the
assignment-built `labelToModel` is the plain association list in input
order. -/
theorem mkLabelToModel_eq_map (responses : List CandidateResponse)
    (h : (responses.enum.map (fun p => "Response ".push (labelChar p.1))).Nodup) :
    mkLabelToModel responses =
      responses.enum.map (fun p =>
        ("Response ".push (labelChar p.1),
          (⟨p.2.modelId, p.2.modelName⟩ : ModelInfo))) := by
  unfold mkLabelToModel
  have hfold := foldl_setKey_pairs responses.enum
    (fun p => "Response ".push (labelChar p.1))
    (fun p => (⟨p.2.modelId, p.2.modelName⟩ : ModelInfo)) [] h (by simp)
  simpa using hfold

/-! ## Aggregation-accumulator lemmas -/

/-- The pushes addressed to one label, in order. -/
def eventsFor (k : String) (events : List (String × PosEntry × String)) :
    List (PosEntry × String) :=
  events.filterMap (fun e => if e.1 = k then some e.2 else none)

/-- Appending a batch of pushes to an optional accumulator cell: absent cells
are created by the first push. -/
def appendCell (o : Option (List PosEntry × List String))
    (es : List (PosEntry × String)) : Option (List PosEntry × List String) :=
  match o with
  | some cell => some (cell.1 ++ es.map Prod.fst, cell.2 ++ es.map Prod.snd)
  | none => if es.isEmpty then none else some (es.map Prod.fst, es.map Prod.snd)

theorem appendCell_nil (o : Option (List PosEntry × List String)) :
    appendCell o [] = o := by
  cases o <;> simp [appendCell]

theorem appendCell_append (o : Option (List PosEntry × List String))
    (es1 es2 : List (PosEntry × String)) :
    appendCell (appendCell o es1) es2 = appendCell o (es1 ++ es2) := by
  cases o with
  | some cell => simp [appendCell, List.append_assoc]
  | none =>
    cases es1 with
    | nil => simp [appendCell]
    | cons e es =>
      cases es2 with
      | nil => simp [appendCell]
      | cons f fs => simp [appendCell]

theorem lookupStr_pushEvent (acc : List (String × List PosEntry × List String))
    (l : String) (pe : PosEntry) (c : String) (k : String) :
    lookupStr k (pushEvent acc l pe c) =
      appendCell (lookupStr k acc) (if l = k then [(pe, c)] else []) := by
  induction acc with
  | nil =>
    by_cases h : l = k <;> simp [pushEvent, lookupStr, appendCell, h]
  | cons hd rest ih =>
    obtain ⟨k0, ps0, cs0⟩ := hd
    by_cases h0 : k0 = l
    · subst h0
      by_cases hk : k0 = k
      · subst hk; simp [pushEvent, lookupStr, appendCell]
      · simp [pushEvent, lookupStr, hk, appendCell_nil, if_neg hk]
    · by_cases hk : k0 = k
      · subst hk
        have hlk : l ≠ k0 := fun he => h0 he.symm
        simp [pushEvent, h0, lookupStr, hlk, appendCell_nil]
      · simp [pushEvent, h0, lookupStr, hk, ih]

theorem eventsFor_cons (k : String) (e : String × PosEntry × String)
    (es : List (String × PosEntry × String)) :
    eventsFor k (e :: es) =
      (if e.1 = k then [e.2] else []) ++ eventsFor k es := by
  by_cases h : e.1 = k <;> simp [eventsFor, List.filterMap_cons, h]

theorem lookupStr_foldl_pushEvent (events : List (String × PosEntry × String)) :
    ∀ (acc : List (String × List PosEntry × List String)) (k : String),
      lookupStr k (events.foldl (fun a e => pushEvent a e.1 e.2.1 e.2.2) acc) =
        appendCell (lookupStr k acc) (eventsFor k events) := by
  induction events with
  | nil => intro acc k; simp [eventsFor, appendCell_nil]
  | cons e es ih =>
    intro acc k
    have hstep := ih (pushEvent acc e.1 e.2.1 e.2.2) k
    rw [List.foldl_cons, hstep, lookupStr_pushEvent, appendCell_append, eventsFor_cons]

theorem keys_pushEvent (acc : List (String × List PosEntry × List String))
    (l : String) (pe : PosEntry) (c : String) :
    (pushEvent acc l pe c).map Prod.fst =
      if l ∈ acc.map Prod.fst then acc.map Prod.fst
      else acc.map Prod.fst ++ [l] := by
  induction acc with
  | nil => simp [pushEvent]
  | cons hd rest ih =>
    obtain ⟨k0, ps0, cs0⟩ := hd
    by_cases h0 : k0 = l
    · subst h0; simp [pushEvent]
    · have hne : l ≠ k0 := fun he => h0 he.symm
      by_cases hmem : l ∈ rest.map Prod.fst
      · simp [pushEvent, h0, ih, hmem, hne]
      · simp [pushEvent, h0, ih, hmem, hne]

theorem nodupKeys_pushEvent {acc : List (String × List PosEntry × List String)}
    (hnd : (acc.map Prod.fst).Nodup) (l : String) (pe : PosEntry) (c : String) :
    ((pushEvent acc l pe c).map Prod.fst).Nodup := by
  rw [keys_pushEvent]
  by_cases hmem : l ∈ acc.map Prod.fst
  · simpa [hmem] using hnd
  · rw [if_neg hmem, List.nodup_append]
    refine ⟨hnd, List.nodup_singleton l, ?_⟩
    intro a ha hb
    rw [List.mem_singleton] at hb
    subst hb
    exact hmem ha

theorem nodupKeys_foldl_pushEvent (events : List (String × PosEntry × String)) :
    ∀ (acc : List (String × List PosEntry × List String)),
      (acc.map Prod.fst).Nodup →
      (((events.foldl (fun a e => pushEvent a e.1 e.2.1 e.2.2) acc)).map Prod.fst).Nodup := by
  induction events with
  | nil => intro acc h; simpa using h
  | cons e es ih =>
    intro acc h
    exact ih _ (nodupKeys_pushEvent h e.1 e.2.1 e.2.2)

theorem nodupKeys_buildAcc (opts : AggOptions) (stats : List ModelStat)
    (rankings : List RawRanking) :
    ((buildAcc opts stats rankings).map Prod.fst).Nodup :=
  nodupKeys_foldl_pushEvent _ [] (by simp)

/-- The accumulator cell stored for a key is exactly the batch of pushes
addressed to it. -/
theorem lookupStr_buildAcc (opts : AggOptions) (stats : List ModelStat)
    (rankings : List RawRanking) (k : String) :
    lookupStr k (buildAcc opts stats rankings) =
      appendCell none (eventsFor k (allEvents opts stats rankings)) := by
  unfold buildAcc
  rw [lookupStr_foldl_pushEvent]
  rfl

/-! ## Sorting lemmas (membership only: the claims do not constrain order) -/

theorem mem_insertByRank (e x : AggregateEntry) (l : List AggregateEntry) :
    x ∈ insertByRank e l ↔ x = e ∨ x ∈ l := by
  induction l with
  | nil => simp [insertByRank]
  | cons y ys ih =>
    by_cases h : e.avgRank ≤ y.avgRank
    · simp only [insertByRank, if_pos h, List.mem_cons]
    · simp only [insertByRank, if_neg h, List.mem_cons, ih]
      tauto

theorem mem_sortByAvgRank (x : AggregateEntry) (l : List AggregateEntry) :
    x ∈ sortByAvgRank l ↔ x ∈ l := by
  induction l with
  | nil => simp [sortByAvgRank]
  | cons y ys ih =>
    show x ∈ insertByRank y (sortByAvgRank ys) ↔ _
    rw [mem_insertByRank, ih, List.mem_cons]

/-! ## The aggregation events with both weighting options disabled -/

theorem modelWeightOf_false (stats : List ModelStat) (modelId : String) :
    modelWeightOf false stats modelId = 1 := rfl

theorem eventsFor_append (k : String) (l1 l2 : List (String × PosEntry × String)) :
    eventsFor k (l1 ++ l2) = eventsFor k l1 ++ eventsFor k l2 :=
  List.filterMap_append _ _ _

theorem eventsFor_flatMap {α : Type} (k : String) (l : List α)
    (f : α → List (String × PosEntry × String)) :
    eventsFor k (l.flatMap f) = l.flatMap (fun a => eventsFor k (f a)) := by
  induction l with
  | nil => simp [eventsFor]
  | cons a as ih => simp [List.flatMap_cons, eventsFor_append, ih]

/-- With confidence weighting off and model weight `mw`, the pushes of one
ranking addressed to `k` carry exactly its 1-based positions for `k`, each
with weight `mw`. -/
theorem eventsFor_rankingEvents_noConf (k : String) (mw : ℚ) (r : RawRanking) :
    (eventsFor k (rankingEvents false mw r)).map (fun x => x.1) =
      (r.parsedRanking.enum.filterMap (fun p =>
        if p.2 = k then some ((p.1 : ℚ) + 1) else none)).map
          (fun q => (⟨q, mw⟩ : PosEntry)) := by
  unfold eventsFor rankingEvents
  rw [List.filterMap_map, List.map_filterMap, List.map_filterMap]
  apply List.filterMap_congr
  intro p _
  by_cases h : p.2 = k
  · simp only [Function.comp, h, if_pos rfl]
    cases hl : lookupStr k r.confidenceScores with
    | none => simp
    | some conf => simp
  · simp [Function.comp, h]

theorem flatMapCongr {α β : Type} {l : List α} {f g : α → List β}
    (h : ∀ a ∈ l, f a = g a) : l.flatMap f = l.flatMap g := by
  induction l with
  | nil => simp
  | cons a as ih =>
    simp only [List.flatMap_cons]
    rw [h a (List.mem_cons_self a as), ih (fun x hx => h x (List.mem_cons_of_mem a hx))]

theorem positions_allEvents_false (stats : List ModelStat)
    (rankings : List RawRanking) (k : String) :
    (eventsFor k (allEvents ⟨false, false⟩ stats rankings)).map (fun x => x.1.position) =
      contributingPositions rankings k := by
  unfold allEvents contributingPositions
  rw [eventsFor_flatMap, List.map_flatMap]
  apply flatMapCongr
  intro r _
  have h2 : (eventsFor k (rankingEvents false (modelWeightOf false stats r.modelId) r)).map
        (fun x => x.1.position) =
      ((eventsFor k (rankingEvents false (modelWeightOf false stats r.modelId) r)).map
        (fun x => x.1)).map (fun pe => pe.position) := by
    rw [List.map_map]; rfl
  show (eventsFor k (rankingEvents false (modelWeightOf false stats r.modelId) r)).map
        (fun x => x.1.position) = _
  rw [h2, eventsFor_rankingEvents_noConf, List.map_map]
  exact List.map_id' _

/-- With confidence weighting off, every push of one ranking carries the
model weight unchanged. -/
theorem weight_rankingEvents_noConf (mw : ℚ) (r : RawRanking)
    (ev : String × PosEntry × String) (hev : ev ∈ rankingEvents false mw r) :
    ev.2.1.weight = mw := by
  unfold rankingEvents at hev
  rcases List.mem_map.mp hev with ⟨p, _, hp⟩
  subst hp
  dsimp only
  cases lookupStr p.2 r.confidenceScores with
  | none => rfl
  | some conf => simp

/-- Every push performed with both weighting options disabled carries
weight `1`. -/
theorem weight_allEvents_false (stats : List ModelStat)
    (rankings : List RawRanking) (ev : String × PosEntry × String)
    (hev : ev ∈ allEvents ⟨false, false⟩ stats rankings) : ev.2.1.weight = 1 := by
  unfold allEvents at hev
  rcases List.mem_flatMap.mp hev with ⟨r, _, hr⟩
  have hmw := weight_rankingEvents_noConf (modelWeightOf false stats r.modelId) r ev hr
  rw [hmw, modelWeightOf_false]

/-- Inversion of `mkEntry`: an emitted aggregate entry comes from a nonempty
position list, carries its label, and its reported `avgRank` is the rounded
weighted mean. -/
theorem mkEntry_some {labelToModel : List (String × ModelInfo)} {label : String}
    {ps : List PosEntry} {cs : List String} {e : AggregateEntry}
    (h : mkEntry labelToModel label ps cs = some e) :
    ¬ ps.isEmpty = true ∧ e.label = label ∧ (lookupStr label labelToModel).isSome ∧
      e.avgRank = round2 (if 0 < (ps.map (fun p => p.weight)).sum
        then (ps.map (fun p => p.position * p.weight)).sum /
          (ps.map (fun p => p.weight)).sum
        else 0) := by
  unfold mkEntry at h
  by_cases hpe : ps.isEmpty
  · rw [if_pos hpe] at h; cases h
  · rw [if_neg hpe] at h
    cases hinfo : lookupStr label labelToModel with
    | none => rw [hinfo] at h; cases h
    | some info =>
      rw [hinfo] at h
      have hrec := Option.some.inj h
      subst hrec
      exact ⟨hpe, rfl, by simp [hinfo], rfl⟩

/-- Claim C4, amended: with both weighting options disabled, the `avgRank`
reported for each label is the unweighted arithmetic mean of its 1-based
positions over all contributing rankings, rounded to two decimals
(`Math.round(avgRank * 100) / 100`, applied by the source to the value it
reports). -/
theorem agg_unweighted_reports_rounded_mean (rankings : List RawRanking)
    (labelToModel : List (String × ModelInfo)) (stats : List ModelStat)
    (e : AggregateEntry)
    (he : e ∈ calculateAggregateRankings rankings labelToModel ⟨false, false⟩ stats) :
    e.avgRank = round2 (listMean (contributingPositions rankings e.label)) := by
  unfold calculateAggregateRankings at he
  rw [mem_sortByAvgRank] at he
  rcases List.mem_filterMap.mp he with ⟨kv, hkv, hmk⟩
  obtain ⟨hne, hlab, _, havg⟩ := mkEntry_some hmk
  have hlook : lookupStr kv.1 (buildAcc ⟨false, false⟩ stats rankings) = some kv.2 :=
    lookupStr_of_mem_nodupKeys (nodupKeys_buildAcc _ _ _) hkv
  rw [lookupStr_buildAcc] at hlook
  set es := eventsFor kv.1 (allEvents ⟨false, false⟩ stats rankings) with hes
  have hcell : kv.2 = (es.map Prod.fst, es.map Prod.snd) := by
    simp only [appendCell] at hlook
    by_cases hese : es.isEmpty
    · rw [if_pos hese] at hlook; cases hlook
    · rw [if_neg hese] at hlook
      exact (Option.some.inj hlook).symm
  have hcell1 : kv.2.1 = es.map Prod.fst := by rw [hcell]
  have hpos : kv.2.1.map (fun p => p.position) = contributingPositions rankings kv.1 := by
    rw [hcell1, List.map_map]
    exact positions_allEvents_false stats rankings kv.1
  have hw : ∀ pe ∈ kv.2.1, pe.weight = 1 := by
    rw [hcell1]
    intro pe hpe
    rcases List.mem_map.mp hpe with ⟨x, hx, rfl⟩
    rcases List.mem_filterMap.mp hx with ⟨ev, hev, hif⟩
    by_cases hevk : ev.1 = kv.1
    · rw [if_pos hevk] at hif
      have hwev := weight_allEvents_false stats rankings ev hev
      rw [← Option.some.inj hif]
      exact hwev
    · rw [if_neg hevk] at hif; cases hif
  have hwmap : kv.2.1.map (fun p => p.weight) = List.replicate kv.2.1.length (1 : ℚ) := by
    have hall : ∀ b ∈ kv.2.1.map (fun p => p.weight), b = (1 : ℚ) := by
      intro b hb
      rcases List.mem_map.mp hb with ⟨pe, hpe, rfl⟩
      exact hw pe hpe
    have h2 := List.eq_replicate_of_mem hall
    rwa [List.length_map] at h2
  have htw : (kv.2.1.map (fun p => p.weight)).sum = (kv.2.1.length : ℚ) := by
    rw [hwmap, List.sum_replicate, nsmul_eq_mul, mul_one]
  have hws : (kv.2.1.map (fun p => p.position * p.weight)).sum
      = (kv.2.1.map (fun p => p.position)).sum := by
    congr 1
    apply List.map_congr_left
    intro pe hpe
    rw [hw pe hpe, mul_one]
  have hlen : 0 < (kv.2.1.length : ℚ) := by
    have hnil : kv.2.1 ≠ [] := by
      intro h0
      rw [h0] at hne
      exact hne rfl
    have hlp : 0 < kv.2.1.length := List.length_pos.mpr hnil
    exact_mod_cast hlp
  rw [havg, hlab, htw, if_pos hlen, hws]
  unfold listMean
  rw [← hpos, List.length_map]

/-! ## Position-matrix lemmas -/

theorem lookupStr_pushPos (m : List (String × List ℚ)) (l : String) (p : ℚ)
    (k : String) :
    lookupStr k (pushPos m l p) =
      (lookupStr k m).map (fun ps => ps ++ if l = k then [p] else []) := by
  induction m with
  | nil => simp [pushPos, lookupStr]
  | cons hd rest ih =>
    obtain ⟨k0, ps0⟩ := hd
    by_cases h0 : k0 = l
    · subst h0
      by_cases hk : k0 = k
      · subst hk; simp [pushPos, lookupStr]
      · simp [pushPos, lookupStr, hk, ih]
    · by_cases hk : k0 = k
      · subst hk
        have hlk : l ≠ k0 := fun he => h0 he.symm
        simp [pushPos, h0, lookupStr, hlk]
      · simp [pushPos, h0, lookupStr, hk, ih]

/-- The positions pushed for one label, in push order. -/
def eventsPos (k : String) (events : List (String × ℚ)) : List ℚ :=
  events.filterMap (fun e => if e.1 = k then some e.2 else none)

theorem lookupStr_foldl_pushPos (events : List (String × ℚ)) :
    ∀ (m : List (String × List ℚ)) (k : String),
      lookupStr k (events.foldl (fun a e => pushPos a e.1 e.2) m) =
        (lookupStr k m).map (fun ps => ps ++ eventsPos k events) := by
  induction events with
  | nil =>
    intro m k
    simp only [List.foldl_nil, eventsPos, List.filterMap_nil, List.append_nil]
    cases lookupStr k m <;> simp
  | cons e es ih =>
    intro m k
    rw [List.foldl_cons, ih, lookupStr_pushPos, Option.map_map]
    cases lookupStr k m with
    | none => rfl
    | some ps =>
      by_cases h : e.1 = k
      · simp [eventsPos, List.filterMap_cons, h, List.append_assoc]
      · simp [eventsPos, List.filterMap_cons, h]

theorem filterMapFlatMap {α β γ : Type} (l : List α) (f : α → List β)
    (g : β → Option γ) :
    (l.flatMap f).filterMap g = l.flatMap (fun a => (f a).filterMap g) := by
  induction l with
  | nil => simp
  | cons a as ih => simp [List.flatMap_cons, List.filterMap_append, ih]

/-- The pushes addressed to a label by the disagreement loops are exactly its
1-based positions across the usable rankings. -/
theorem eventsPos_disagEvents (rankings : List RawRanking) (k : String) :
    eventsPos k (disagEvents (rankings.filter isUsableRanking)) =
      usablePositions rankings k := by
  unfold disagEvents usablePositions eventsPos
  rw [filterMapFlatMap]
  apply flatMapCongr
  intro r _
  rw [List.filterMap_map]
  apply List.filterMap_congr
  intro p _
  by_cases h : p.2 = k <;> simp [Function.comp, h]

theorem lookupStr_disagMatrix (validRankings : List RawRanking)
    (labels : List String) (k : String) (hk : k ∈ labels) :
    lookupStr k (disagMatrix validRankings labels) =
      some (eventsPos k (disagEvents validRankings)) := by
  unfold disagMatrix
  rw [lookupStr_foldl_pushPos, lookupStr_map_nil, if_pos hk]
  simp

theorem disagVariances_eq (rankings : List RawRanking) (labels : List String) :
    disagVariances (disagMatrix (rankings.filter isUsableRanking) labels) labels =
      labels.filterMap (fun label =>
        if (usablePositions rankings label).isEmpty then none
        else some (label, statsOf (usablePositions rankings label))) := by
  unfold disagVariances
  apply List.filterMap_congr
  intro label hl
  rw [lookupStr_disagMatrix _ _ _ hl, eventsPos_disagEvents]

theorem statsOf_variance (ps : List ℚ) : (statsOf ps).variance = popVariance ps := rfl

theorem sum_variances_filterMap (labels : List String) (f : String → List ℚ) :
    ((labels.filterMap (fun lb => if (f lb).isEmpty then none
        else some (lb, statsOf (f lb)))).map (fun v => v.2.variance)).sum =
      (labels.map (fun lb => if (f lb).isEmpty then 0 else popVariance (f lb))).sum := by
  induction labels with
  | nil => simp
  | cons lb ls ih =>
    by_cases h : (f lb).isEmpty
    · simp only [List.filterMap_cons]
      rw [if_pos h]
      dsimp only
      rw [List.map_cons, List.sum_cons, if_pos h, zero_add]
      exact ih
    · simp only [List.filterMap_cons]
      rw [if_neg h]
      dsimp only
      rw [List.map_cons, List.sum_cons, List.map_cons, List.sum_cons, if_neg h,
        ih, statsOf_variance]

/-- Claim C5, amended: with at least 2 usable rankings, the consensus the
analyzer returns is `max(0, 1 - totalVariance / (maxPossibleVariance *
labelCount))`, rounded to two decimals (`Math.round(consensus * 100) / 100`,
applied by the source to the value it returns). -/
theorem consensus_reports_rounded_formula (rankings : List RawRanking)
    (labelToModel : List (String × ModelInfo))
    (h2 : 2 ≤ (rankings.filter isUsableRanking).length) :
    (analyzeDisagreements rankings labelToModel).consensus =
      round2 (max 0 (1 - specTotalVariance rankings labelToModel /
        ((labelToModel.length : ℚ) ^ 2 / 12 * (labelToModel.length : ℚ)))) := by
  have hlt : ¬ (rankings.filter isUsableRanking).length < 2 := by omega
  unfold analyzeDisagreements
  rw [if_neg hlt]
  dsimp only
  rw [disagVariances_eq, sum_variances_filterMap]
  unfold specTotalVariance
  rw [List.length_map]

/-! ## Concrete instances used by witnesses and counterexamples

The rational arithmetic of the embedding is exact and computable; the
arithmetic core operations are made semireducible here so that concrete runs
evaluate inside `decide`. -/

unseal Rat.mul Rat.add Rat.inv Rat.sub

def infoA : ModelInfo := ⟨"m1", "M1"⟩

def infoB : ModelInfo := ⟨"m2", "M2"⟩

def infoC : ModelInfo := ⟨"m3", "M3"⟩

/-- A valid raw ranking with the given parsed order and no confidence data. -/
def validRk (p : List String) : RawRanking :=
  ⟨"x", "X", "", p, [], none, true, none⟩

def twoLabelMap : List (String × ModelInfo) :=
  [("Response A", infoA), ("Response B", infoB)]

def threeLabelMap : List (String × ModelInfo) :=
  [("Response A", infoA), ("Response B", infoB), ("Response C", infoC)]

def oneResponse : List CandidateResponse := [⟨"m1", "M1", "c1"⟩]

def twoResponses : List CandidateResponse :=
  [⟨"m1", "M1", "c1"⟩, ⟨"m2", "M2", "c2"⟩]

def rs27 : List CandidateResponse := List.replicate 27 ⟨"m", "M", "c"⟩

def transportOk : Transport := fun _ _ => .ok "no ranking"

def transportFail : Transport := fun _ _ => .error "boom"

/-! ## Claim theorems -/

/-- C1: for every responses sequence with fewer than 2 elements, `runCouncil`
fails with the insufficient-responses error (`InsufficientResponsesError`,
thrown as `Error('Council requires at least 2 responses')`) and produces no
partial Council Result.  The result is this error uniformly in the transport,
the stats and the options: no ranking collection, aggregation or synthesis
can influence (or be observed by) the failing run, and no state exists to be
changed in the pure embedding. -/
theorem runCouncil_insufficient_responses (q : String)
    (responses : List CandidateResponse) (transport : Transport)
    (stats : List ModelStat) (copt : Option String) (opts : AggOptions)
    (h : responses.length < 2) :
    runCouncil q responses transport stats copt opts =
      .error (.insufficientResponses "Council requires at least 2 responses") := by
  unfold runCouncil
  rw [if_pos h]

theorem runCouncil_insufficient_responses_witness :
    runCouncil "q" oneResponse transportOk [] none {} =
      .error (.insufficientResponses "Council requires at least 2 responses") :=
  runCouncil_insufficient_responses "q" oneResponse transportOk [] none {}
    (by decide)

/-- C2: on the text `"FINAL RANKING:\n1. Response B (HIGH)\n2. Response A
(LOW)"`, `parseRankingWithConfidence` returns the ranked order
`[Response B, Response A]` (labels in textual order of appearance after the
marker) with confidence `{Response B ↦ HIGH, Response A ↦ LOW}`. -/
theorem parse_final_ranking_with_confidence_example :
    parseRankingWithConfidence
        "FINAL RANKING:\n1. Response B (HIGH)\n2. Response A (LOW)" =
      { ranking := ["Response B", "Response A"],
        confidenceScores := [("Response B", "HIGH"), ("Response A", "LOW")] } := by
  decide

/-- The marker-free fallback text of claim C3: `Response A`, then
`Response C`, then `Response A` again, and no other `Response <letter>`
occurrence. -/
def fallbackText : String :=
  "Response A is strong. Response C is weaker. Response A stays on top."

/-- C3: on a text with no `FINAL RANKING:` marker containing `Response A`,
then `Response C`, then `Response A` again, the parser returns the order
`[A, C, A]` with duplicates preserved, and `validateRanking` on that order
with expected count 3 returns false because of the duplicate. -/
theorem parse_fallback_duplicates_example :
    containsChars finalRankingMarker fallbackText.data = false ∧
    parseRankingWithConfidence fallbackText =
      { ranking := ["Response A", "Response C", "Response A"],
        confidenceScores := [("Response A", "MEDIUM"), ("Response C", "MEDIUM")] } ∧
    validateRanking (parseRankingWithConfidence fallbackText).ranking 3 = false := by
  decide

/-- C6: with fewer than 2 rankings that are both flagged valid and non-empty,
`analyzeDisagreements` short-circuits to consensus 1.0, an empty
disagreements list and no `mostContested` (and no position matrix). -/
theorem analyze_short_circuit (rankings : List RawRanking)
    (labelToModel : List (String × ModelInfo))
    (h : (rankings.filter isUsableRanking).length < 2) :
    analyzeDisagreements rankings labelToModel =
      { consensus := 1, disagreements := [], mostContested := none,
        positionMatrix := none } := by
  unfold analyzeDisagreements
  rw [if_pos h]

theorem analyze_short_circuit_witness :
    analyzeDisagreements [validRk ["Response A"]] twoLabelMap =
      { consensus := 1, disagreements := [], mostContested := none,
        positionMatrix := none } :=
  analyze_short_circuit [validRk ["Response A"]] twoLabelMap (by decide)

/-- C9: whenever the synthesis transport call fails, the synthesizer returns
a result whose `content` is the descriptive error string (the failure is not
propagated), the chairman's display name degrades to `"Chairman"`, and the
orchestrator still completes: `runCouncil` returns a full Council Result
(`synthesisOf` is `some …`, i.e. the run reached the `.ok` constructor). -/
theorem synthesis_error_degrades (q : String)
    (responses : List CandidateResponse) (transport : Transport)
    (stats : List ModelStat) (copt : Option String) (opts : AggOptions)
    (msg : String) (h2 : 2 ≤ responses.length)
    (herr : transport (chairmanOf copt responses)
        (chairmanPrompt q responses
          (collectRankings q responses transport).rankings) = .error msg) :
    synthesisOf (runCouncil q responses transport stats copt opts) =
      some ⟨chairmanOf copt responses, "Chairman",
        "Error synthesizing response: " ++ msg⟩ := by
  have hlt : ¬ responses.length < 2 := by omega
  unfold runCouncil
  rw [if_neg hlt]
  show some (synthesizeFinal q responses
    (collectRankings q responses transport).rankings
    (chairmanOf copt responses) transport) = _
  unfold synthesizeFinal
  rw [herr]

theorem synthesis_error_degrades_witness :
    synthesisOf (runCouncil "q" twoResponses transportFail [] none {}) =
      some ⟨chairmanOf none twoResponses, "Chairman",
        "Error synthesizing response: " ++ "boom"⟩ :=
  synthesis_error_degrades "q" twoResponses transportFail [] none {} "boom"
    (by decide) rfl

/-- Three valid rankings giving `Response A` the positions 1, 2, 1. -/
def cex4R : List RawRanking :=
  [validRk ["Response A", "Response B"], validRk ["Response B", "Response A"],
   validRk ["Response A", "Response B"]]

/-- C4, counterexample to the literal claim: with both weighting options off,
the `avgRank` the aggregator reports for `Response A` over the positions
1, 2, 1 is `1.33` (the rounded value), while the unweighted arithmetic mean
of those positions is `4/3`; the two differ, so the reported weighted rank
does not equal the mean exactly. -/
theorem agg_unweighted_literal_cex :
    ((calculateAggregateRankings cex4R twoLabelMap ⟨false, false⟩ []).find?
        (fun e => e.label = "Response A")).map (fun e => e.avgRank) =
      some (133 / 100) ∧
    listMean (contributingPositions cex4R "Response A") = 4 / 3 ∧
    ((133 : ℚ) / 100) ≠ 4 / 3 := by
  decide

/-- The aggregate entry the counterexample run produces for `Response A`. -/
def cex4Entry : AggregateEntry :=
  ⟨"Response A", "m1", "M1", 133 / 100, 3, 7 / 10, 0, 3, 0, 3⟩

theorem agg_unweighted_reports_rounded_mean_witness :
    cex4Entry.avgRank =
      round2 (listMean (contributingPositions cex4R cex4Entry.label)) :=
  agg_unweighted_reports_rounded_mean cex4R twoLabelMap [] cex4Entry (by decide)

/-- Two valid rankings over three labels: per-label variances 1/4, 1/4, 0. -/
def cex5R : List RawRanking :=
  [validRk ["Response A", "Response B", "Response C"],
   validRk ["Response B", "Response A", "Response C"]]

/-- C5, counterexample to the literal claim: with total variance `1/2` over
3 labels the formula `max(0, 1 - totalVariance/(maxPossibleVariance *
labelCount))` gives `7/9`, but the analyzer returns the rounded `0.78 =
39/50`; the two differ, so the returned consensus does not equal the formula
exactly. -/
theorem consensus_literal_cex :
    (analyzeDisagreements cex5R threeLabelMap).consensus = 39 / 50 ∧
    max 0 (1 - specTotalVariance cex5R threeLabelMap /
        ((threeLabelMap.length : ℚ) ^ 2 / 12 * (threeLabelMap.length : ℚ))) = 7 / 9 ∧
    ((39 : ℚ) / 50) ≠ 7 / 9 := by
  decide

theorem consensus_reports_rounded_formula_witness :
    (analyzeDisagreements cex5R threeLabelMap).consensus =
      round2 (max 0 (1 - specTotalVariance cex5R threeLabelMap /
        ((threeLabelMap.length : ℚ) ^ 2 / 12 * (threeLabelMap.length : ℚ)))) :=
  consensus_reports_rounded_formula cex5R threeLabelMap (by decide)

/-- C7, amended: for every response set of size `N` with `2 ≤ N ≤ 26`, the
`labelToModel` mapping has exactly `N` entries, pairwise-distinct keys, and
the `i`-th response receives the `i`-th letter: its key is
`"Response " + fromCharCode(65 + i)`, an uppercase letter.  (For `N > 26`
the construction continues past `'Z'` into non-letter characters — see the
counterexample — which is what forces the `N ≤ 26` bound.) -/
theorem labelToModel_entries (responses : List CandidateResponse)
    (h2 : 2 ≤ responses.length) (h26 : responses.length ≤ 26) :
    (mkLabelToModel responses).length = responses.length ∧
    ((mkLabelToModel responses).map Prod.fst).Nodup ∧
    (∀ i r, responses[i]? = some r →
      (mkLabelToModel responses)[i]? =
        some ("Response ".push (labelChar i), ⟨r.modelId, r.modelName⟩) ∧
      (labelChar i).isUpper = true) := by
  have hkeys : responses.enum.map (fun p => "Response ".push (labelChar p.1)) =
      (List.range responses.length).map
        (fun i => "Response ".push (labelChar i)) := by
    rw [show (fun (p : ℕ × CandidateResponse) => "Response ".push (labelChar p.1)) =
      ((fun i => "Response ".push (labelChar i)) ∘ Prod.fst) from rfl]
    rw [← List.map_map, List.enum_map_fst]
  have hnodup : (responses.enum.map
      (fun p => "Response ".push (labelChar p.1))).Nodup := by
    rw [hkeys]
    have htake : (List.range responses.length).map
        (fun i => "Response ".push (labelChar i)) =
        ((List.range 26).map (fun i => "Response ".push (labelChar i))).take
          responses.length := by
      rw [← List.map_take, List.take_range, Nat.min_eq_left h26]
    rw [htake]
    have hnd : ((List.range 26).map
        (fun i => "Response ".push (labelChar i))).Nodup := by decide
    exact (List.take_sublist _ _).nodup hnd
  have hmk := mkLabelToModel_eq_map responses hnodup
  refine ⟨?_, ?_, ?_⟩
  · rw [hmk]
    simp [List.enum_length]
  · rw [hmk, List.map_map]
    have hcomp : (Prod.fst ∘ fun (p : ℕ × CandidateResponse) =>
        ("Response ".push (labelChar p.1),
          (⟨p.2.modelId, p.2.modelName⟩ : ModelInfo))) =
        (fun p => "Response ".push (labelChar p.1)) := rfl
    rw [hcomp]
    exact hnodup
  · intro i r hi
    have hup : ∀ j, j < 26 → (labelChar j).isUpper = true := by decide
    have hlt : i < responses.length := by
      rcases List.getElem?_eq_some.mp hi with ⟨hl, _⟩
      exact hl
    refine ⟨?_, hup i (lt_of_lt_of_le hlt h26)⟩
    rw [hmk, List.getElem?_map, List.getElem?_enum, hi]
    rfl

/-- C7, counterexample to the literal claim: a response set of size 27
satisfies `N ≥ 2`, yet its 27-th label key is `"Response ["` —
`fromCharCode(65 + 26) = '['` is not an uppercase letter. -/
theorem labelToModel_uppercase_cex :
    2 ≤ rs27.length ∧
    ((mkLabelToModel rs27).map Prod.fst)[26]? = some ("Response ".push '[') ∧
    '['.isUpper = false := by
  decide

theorem labelToModel_entries_witness :
    (mkLabelToModel twoResponses).length = twoResponses.length ∧
    ((mkLabelToModel twoResponses).map Prod.fst).Nodup ∧
    (mkLabelToModel twoResponses)[0]? =
      some ("Response ".push (labelChar 0), ⟨"m1", "M1"⟩) ∧
    (labelChar 0).isUpper = true := by
  obtain ⟨h1, h2, h3⟩ := labelToModel_entries twoResponses (by decide) (by decide)
  obtain ⟨h4, h5⟩ := h3 0 ⟨"m1", "M1", "c1"⟩ (by decide)
  exact ⟨h1, h2, h4, h5⟩

/-- C8, amended: `collectRankings` never fails with a label-overflow error —
no such check exists in the code.  For every response sequence (27 and more
responses included) it returns a complete result with one ranking per
response; past 26 it silently keeps labelling with successive UTF-16 code
units instead of failing (the counterexample shows the 27th key,
`"Response ["`). -/
theorem collectRankings_no_overflow (q : String)
    (responses : List CandidateResponse) (transport : Transport) :
    (collectRankings q responses transport).rankings.length =
      responses.length := by
  unfold collectRankings
  simp

/-- C8, counterexample to the literal claim: on a 27-response sequence
`collectRankings` does not fail: it returns 27 rankings and 27 label
entries, the 27-th being keyed `"Response ["` (`fromCharCode(91)`). -/
theorem collectRankings_no_overflow_cex :
    (collectRankings "q" rs27 transportOk).labelToModel.length = 27 ∧
    ((collectRankings "q" rs27 transportOk).labelToModel.map Prod.fst)[26]? =
      some ("Response ".push '[') ∧
    (collectRankings "q" rs27 transportOk).rankings.length = 27 := by
  decide

/-- C10: every aggregate entry's label is a key of `labelToModel` (the
aggregator drops any parsed label outside the candidate set), and the
disagreement analyzer's position matrix has no row for any label outside
`labelToModel` (such labels' positions are silently dropped and contribute
no statistics). -/
theorem labels_outside_candidate_set_dropped (rankings : List RawRanking)
    (labelToModel : List (String × ModelInfo)) (opts : AggOptions)
    (stats : List ModelStat) :
    (∀ e, e ∈ calculateAggregateRankings rankings labelToModel opts stats →
      (lookupStr e.label labelToModel).isSome = true) ∧
    (∀ m, (analyzeDisagreements rankings labelToModel).positionMatrix = some m →
      ∀ label, lookupStr label labelToModel = none →
        lookupStr label m = none) := by
  constructor
  · intro e he
    unfold calculateAggregateRankings at he
    rw [mem_sortByAvgRank] at he
    rcases List.mem_filterMap.mp he with ⟨kv, _, hmk⟩
    obtain ⟨_, hlab, hsome, _⟩ := mkEntry_some hmk
    rw [hlab]
    exact hsome
  · intro m hm label hnone
    unfold analyzeDisagreements at hm
    by_cases hlt : (rankings.filter isUsableRanking).length < 2
    · rw [if_pos hlt] at hm; cases hm
    · rw [if_neg hlt] at hm
      dsimp only at hm
      have hmm := Option.some.inj hm
      subst hmm
      unfold disagMatrix
      rw [lookupStr_foldl_pushPos, lookupStr_map_nil]
      have hnotin := (lookupStr_eq_none_iff label labelToModel).mp hnone
      rw [if_neg hnotin]
      rfl

/-- Two valid rankings that both also mention the hallucinated label
`Response Q`, outside the two-candidate set. -/
def cex10R : List RawRanking :=
  [validRk ["Response A", "Response B", "Response Q"],
   validRk ["Response B", "Response A", "Response Q"]]

/-- The position matrix the C10 run produces: rows only for the two real
labels, none for `Response Q`. -/
def cex10Matrix : List (String × List ℚ) :=
  [("Response A", [1, 2]), ("Response B", [2, 1])]

/-- The aggregate entry the C10 run produces for `Response A`. -/
def cex10Entry : AggregateEntry :=
  ⟨"Response A", "m1", "M1", 3 / 2, 2, 7 / 10, 0, 2, 0, 2⟩

theorem labels_outside_candidate_set_dropped_witness :
    (lookupStr cex10Entry.label twoLabelMap).isSome = true ∧
    lookupStr "Response Q" cex10Matrix = none :=
  ⟨(labels_outside_candidate_set_dropped cex10R twoLabelMap ⟨false, false⟩ []).1
      cex10Entry (by decide),
   (labels_outside_candidate_set_dropped cex10R twoLabelMap ⟨false, false⟩ []).2
      cex10Matrix (by decide) "Response Q" (by decide)⟩

end Council
